import Mathlib

/-!
Verification of the SmartWatcherV2 event-normalization and audit pipeline.

The Python sources under src/ are shallowly embedded here:
pure helpers become Lean functions, the SQLite-backed audit store becomes
an explicit `Store` state threaded through the operations, and the live
filesystem (an external collaborator) is an oracle record `FS`.
-/

namespace SmartWatcher

/-! ### Glob matching (model of Python's fnmatch.fnmatch on POSIX)

`should_ignore` in src/watcher/handlers.py delegates pattern matching to
the standard library's `fnmatch.fnmatch`.  We model its glob language:
`*` matches any sequence, `?` any single character, `[...]`/`[!...]`
character classes with ranges; a `[` with no closing `]` is a literal.
The match is anchored at both ends, as fnmatch's compiled regex is. -/

/-- One compiled glob token. -/
inductive GlobTok where
  | star : GlobTok
  | anyChar : GlobTok
  | lit : Char → GlobTok
  | cls : Bool → List Char → GlobTok
deriving Repr, DecidableEq

/-- Scan for the first unescaped closing bracket; returns the class body
and the remainder of the pattern. -/
def findRBrack : List Char → Option (List Char × List Char)
  | [] => none
  | c :: rest =>
    if c = ']' then some ([], rest)
    else
      match findRBrack rest with
      | none => none
      | some (body, rem) => some (c :: body, rem)

theorem findRBrack_length :
    ∀ {l b r}, findRBrack l = some (b, r) → r.length < l.length := by
  intro l
  induction l with
  | nil => intro b r h; simp [findRBrack] at h
  | cons c rest ih =>
    intro b r h
    unfold findRBrack at h
    split at h
    · simp at h
      rw [← h.2]
      simp
    · split at h
      · simp at h
      · rename_i body rem heq
        simp at h
        have := ih heq
        rw [← h.2]
        simp
        omega

/-- Strip an optional leading `!` (class negation marker). -/
def stripNeg : List Char → Bool × List Char
  | '!' :: t => (true, t)
  | ps => (false, ps)

theorem stripNeg_length (ps : List Char) : (stripNeg ps).2.length ≤ ps.length := by
  unfold stripNeg
  split
  · simp
  · simp

/-- Extract a class body: a `]` in first position is a literal member. -/
def clsBody : List Char → Option (List Char × List Char)
  | ']' :: t =>
    match findRBrack t with
    | some (body, rem) => some (']' :: body, rem)
    | none => none
  | other => findRBrack other

theorem clsBody_length :
    ∀ {l b r}, clsBody l = some (b, r) → r.length < l.length := by
  intro l b r h
  unfold clsBody at h
  split at h
  · split at h
    · rename_i body rem heq
      simp at h
      have := findRBrack_length heq
      rw [← h.2]
      simp
      omega
    · simp at h
  · exact findRBrack_length h

/-- Split a character class at the front of `ps` (the part after `[`):
optional leading `!` negates; a `]` directly after that is a literal
member.  Returns (negated, body, rest) or none when no `]` closes it. -/
def splitCls (ps : List Char) : Option (Bool × List Char × List Char) :=
  match clsBody (stripNeg ps).2 with
  | some (body, rem) => some ((stripNeg ps).1, body, rem)
  | none => none

theorem splitCls_length {ps : List Char} {neg : Bool} {b r : List Char}
    (h : splitCls ps = some (neg, b, r)) : r.length < ps.length := by
  unfold splitCls at h
  split at h
  · rename_i body rem heq
    simp at h
    have h1 := clsBody_length heq
    have h2 := stripNeg_length ps
    rw [← h.2.2]
    omega
  · simp at h

/-- Compile a glob pattern to tokens, fnmatch-style.  The fuel is the
length of the remaining pattern: every step consumes at least one
character, so it never runs out (see `parseGlob`). -/
def parseGlobAux : Nat → List Char → List GlobTok
  | _, [] => []
  | 0, _ :: _ => []
  | fuel + 1, '*' :: ps => GlobTok.star :: parseGlobAux fuel ps
  | fuel + 1, '?' :: ps => GlobTok.anyChar :: parseGlobAux fuel ps
  | fuel + 1, '[' :: ps =>
    match splitCls ps with
    | some (neg, body, rest) => GlobTok.cls neg body :: parseGlobAux fuel rest
    | none => GlobTok.lit '[' :: parseGlobAux fuel ps
  | fuel + 1, c :: ps => GlobTok.lit c :: parseGlobAux fuel ps

/-- Compile a glob pattern to tokens.  By `splitCls_length` each
recursion step of `parseGlobAux` strictly shortens the pattern, so
`l.length` fuel always suffices. -/
def parseGlob (l : List Char) : List GlobTok :=
  parseGlobAux l.length l

/-- Membership of a character in a class body, with `a-b` ranges. -/
def memCls : List Char → Char → Bool
  | [], _ => false
  | a :: '-' :: b :: rest, c => (a ≤ c && c ≤ b) || memCls rest c
  | a :: rest, c => (a == c) || memCls rest c

/-- Match compiled glob tokens against a character list (anchored at
both ends, as fnmatch's compiled regex is).  `star` tries every split
point via `List.tails`. -/
def matchToks : List GlobTok → List Char → Bool
  | [], cs => cs.isEmpty
  | GlobTok.star :: ts, cs => cs.tails.any fun suf => matchToks ts suf
  | GlobTok.anyChar :: ts, cs =>
    match cs with
    | [] => false
    | _ :: rest => matchToks ts rest
  | GlobTok.lit a :: ts, cs =>
    match cs with
    | [] => false
    | c :: rest => (a == c) && matchToks ts rest
  | GlobTok.cls neg body :: ts, cs =>
    match cs with
    | [] => false
    | c :: rest => (memCls body c != neg) && matchToks ts rest

/-- Model of `fnmatch.fnmatch(s, pat)` (POSIX normcase is the identity). -/
def fnmatch (s pat : String) : Bool :=
  matchToks (parseGlob pat.toList) s.toList

/-! ### Paths and the Ignore Matcher (src/watcher/handlers.py) -/

/-- ASCII lowercasing of a string, character by character (model of
`str.lower()`; the repository's patterns and paths are ASCII). -/
def strLower (s : String) : String :=
  String.mk (s.data.map Char.toLower)

/-- Split a character list at `/` separators. -/
def splitOnSlash : List Char → List (List Char)
  | [] => [[]]
  | '/' :: rest => [] :: splitOnSlash rest
  | c :: rest =>
    match splitOnSlash rest with
    | [] => [[c]]
    | g :: gs => (c :: g) :: gs

/-- Model of `pathlib.Path(s).name`: the final path component
(POSIX separators; empty and `.` components are dropped, as pathlib's
parsing does). -/
def pathName (s : String) : String :=
  String.mk (((splitOnSlash s.data).filter
    (fun c => c != [] && c != ['.'])).getLastD [])

/-- `DEFAULT_IGNORE_PATTERNS` from src/watcher/handlers.py. -/
def DEFAULT_IGNORE_PATTERNS : List String :=
  [".DS_Store", "Thumbs.db", "desktop.ini",
   "*.tmp", "*.temp", "*.swp", "*.swo", "*~", "~$*",
   "*.crdownload", "*.part", "*.lock"]

/-- `should_ignore(path, patterns)` from src/watcher/handlers.py:
matches each pattern against both the lowercased file name and the
lowercased full path string. -/
def should_ignore (path : String) (patterns : List String) : Bool :=
  let name_lower := strLower (pathName path)
  let full_lower := strLower path
  patterns.any fun pattern =>
    let pattern_lower := strLower pattern
    fnmatch name_lower pattern_lower || fnmatch full_lower pattern_lower

/-! ### The audit store (src/db/audit_logger.py)

The SQLite storage engine is an external collaborator (spec sections 1
and 6); the table `audit_events` is embedded as a list of rows plus the
auto-increment counter.  `extra_json` (the `json.dumps` of the `extra`
dict) is kept as the key/value list itself: it is an opaque advisory
blob, never used for identity or ordering. -/

/-- One row of the `audit_events` table. -/
structure Row where
  id : Nat
  event_time : String
  event_type : String
  src_path : Option String
  dest_path : Option String
  file_size_bytes : Option Nat
  sha256 : Option String
  extra_json : Option (List (String × Bool))
deriving Repr, DecidableEq

/-- The audit store: rows in insertion order plus the next rowid.
Modelled from the spec: src/db/schema.sql is not under src/ (only
`init_db` reads it); per spec section 6 the table has an auto-increment
integer primary key `id`, so insertion assigns `nextId` and bumps it. -/
structure Store where
  rows : List Row
  nextId : Nat
deriving Repr, DecidableEq

/-- A fresh store; SQLite rowids start at 1. -/
def emptyStore : Store := ⟨[], 1⟩

/-- Python's `x or y` on an optional string: `None` and `""` are falsy. -/
def pyOrStr (o : Option String) (dflt : String) : String :=
  match o with
  | none => dflt
  | some s => if s = "" then dflt else s

/-- Python truthiness of an optional string argument. -/
def pyTruthy (o : Option String) : Bool :=
  o.getD "" != ""

namespace AuditLogger

/-- `AuditLogger.log` from src/db/audit_logger.py: inserts one row and
returns the new store and the inserted rowid.  `now` is the value the
clock collaborator returns for `utc_now_iso()` at this call. -/
def log (st : Store) (event_type : String)
    (src_path dest_path : Option String)
    (file_size_bytes : Option Nat) (sha256 : Option String)
    (extra : Option (List (String × Bool)))
    (event_time : Option String) (now : String) : Store × Nat :=
  let time_str := pyOrStr event_time now
  let row : Row :=
    ⟨st.nextId, time_str, event_type, src_path, dest_path,
     file_size_bytes, sha256, extra⟩
  (⟨st.rows ++ [row], st.nextId + 1⟩, st.nextId)

/-- `ORDER BY id DESC` over the stored rows. -/
def orderByIdDesc (rows : List Row) : List Row :=
  List.insertionSort (fun a b => b.id ≤ a.id) rows

/-- `AuditLogger.latest` from src/db/audit_logger.py: most recent
`limit` rows, id-descending. -/
def latest (st : Store) (limit : Nat) : List Row :=
  (orderByIdDesc st.rows).take limit

/-- Does `hay` start with `needle`? -/
def startsWithChars : List Char → List Char → Bool
  | [], _ => true
  | _ :: _, [] => false
  | a :: as, b :: bs => (a == b) && startsWithChars as bs

/-- Is `needle` a contiguous substring of `hay`? -/
def substrOf (needle hay : List Char) : Bool :=
  hay.tails.any (startsWithChars needle)

/-- The SQL fragment `src_path LIKE '%c%' OR dest_path LIKE '%c%'` of
`AuditLogger.search`: substring match against either path field; a NULL
field never matches (SQL three-valued logic keeps only true rows).  The
LIKE wildcard and case quirks of the storage engine are out of scope per
spec sections 1 and 6; the store contract is plain substring match. -/
def likeContains (field : Option String) (needle : String) : Bool :=
  match field with
  | none => false
  | some s => substrOf needle.toList s.toList

/-- Modelled from the spec: the `sinceTime` lower-bound filter of
`search` (`event_time >= ?`) is missing from src/db/audit_logger.py
even though `cmd_search` in src/watcher/main.py passes `since=`; per
spec section 4.5 it is "a timestamp lower bound" on the ISO-8601
`event_time` text, i.e. a lexicographic string comparison. -/
def sinceClause (since : String) (r : Row) : Bool :=
  decide (since ≤ r.event_time)

/-- `AuditLogger.search` from src/db/audit_logger.py: builds the WHERE
clause list exactly as the source does (each truthy argument appends one
conjunct), filters, orders id-descending, and applies the limit.  The
`since` conjunct is the spec-modelled `sinceClause` (see there). -/
def search (st : Store) (event_type contains since : Option String)
    (limit : Nat) : List Row :=
  let where_clauses : List (Row → Bool) :=
    (if pyTruthy event_type then
      [fun r => r.event_type == event_type.getD ""] else [])
    ++ (if pyTruthy contains then
      [fun r => likeContains r.src_path (contains.getD "")
        || likeContains r.dest_path (contains.getD "")] else [])
    ++ (if pyTruthy since then [sinceClause (since.getD "")] else [])
  let matchedRows := st.rows.filter fun r => where_clauses.all fun c => c r
  (orderByIdDesc matchedRows).take limit

/-- The result-building loop of `AuditLogger.latest_hashes`: scan rows
(already id-descending and sha-non-null), keeping the first occurrence
of each truthy path; insertion order is preserved as in a Python dict. -/
def latestHashesGo : List Row → List (String × String) → List (String × String)
  | [], results => results
  | r :: rest, results =>
    match r.src_path, r.sha256 with
    | some path, some h =>
      if path != "" && (results.lookup path).isNone then
        latestHashesGo rest (results ++ [(path, h)])
      else
        latestHashesGo rest results
    | _, _ => latestHashesGo rest results

/-- `AuditLogger.latest_hashes` from src/db/audit_logger.py: rows with
non-null sha256, id-descending, first occurrence per path wins. -/
def latest_hashes (st : Store) : List (String × String) :=
  latestHashesGo (orderByIdDesc (st.rows.filter fun r => r.sha256.isSome)) []

end AuditLogger

/-! ### The live filesystem oracle

The filesystem is an external collaborator; its state during one
operation is an oracle record.  `safe_file_size` in
src/watcher/handlers.py collapses `is_file`/`stat` and the `OSError`
handler into "size when statable, else absent". -/

/-- Oracle for the live filesystem at one instant. -/
structure FS where
  fileSize : String → Option Nat
  digest : String → Option String
  pathExists : String → Bool
  within : String → String → Bool
deriving Inhabited

/-- `safe_file_size(path)` from src/watcher/handlers.py: size when the
path is a statable file, absent on deletion or OSError. -/
def safe_file_size (fs : FS) (path : String) : Option Nat :=
  fs.fileSize path

/-- Modelled from the spec: `safe_sha256` is imported by
src/watcher/main.py from watcher.handlers, but its definition is not
under src/.  Per spec section 4.3 (Fingerprint Service), it returns the
hex content digest of the file, or absent when the file cannot be
opened or has been removed. -/
def safe_sha256 (fs : FS) (path : String) : Option String :=
  fs.digest path

/-! ### The event handler (src/watcher/handlers.py)

`AuditEventHandler` becomes a configuration record plus an explicit
state (the audit store and the per-path debounce map).  The monotonic
clock reading (`time.monotonic()`) and the wall-clock ISO stamp
(`utc_now_iso()` inside `log`) of each notification are passed in
explicitly.  Modelled from the spec: the `hash_enabled` flag and the
Fingerprint Service invocation for create/modify/move are missing from
src/watcher/handlers.py even though `run_watcher` in
src/watcher/watcher.py passes `hash_enabled=` to the constructor; per
spec sections 4.3 and 4.4, when the flag is set the digest of the
resulting path is computed before persistence (absent digest recorded
as null, record still written), and when unset sha256 is null. -/

/-- Handler configuration (immutable for a watch session). -/
structure HandlerCfg where
  include_dirs : Bool
  ignore_patterns : List String
  modified_debounce_seconds : ℚ
  hash_enabled : Bool

/-- `AuditEventHandler.__init__`: defaults plus caller-supplied ignore
patterns appended (Python extends only when the argument is truthy, but
extending by the empty list is the same). -/
def mkHandlerCfg (include_dirs : Bool) (ignore_patterns : Option (List String))
    (modified_debounce_seconds : ℚ) (hash_enabled : Bool) : HandlerCfg :=
  ⟨include_dirs, DEFAULT_IGNORE_PATTERNS ++ ignore_patterns.getD [],
   modified_debounce_seconds, hash_enabled⟩

/-- Mutable handler state: the backing store and the debounce map
`_last_modified_logged_at`. -/
structure HandlerState where
  store : Store
  last_modified_logged_at : List (String × ℚ)
deriving Repr, DecidableEq

/-- Python dict update `m[k] = v`: overwrite in place or append. -/
def mapInsert (m : List (String × ℚ)) (k : String) (v : ℚ) :
    List (String × ℚ) :=
  match m with
  | [] => [(k, v)]
  | (k', v') :: rest =>
    if k' = k then (k, v) :: rest else (k', v') :: mapInsert rest k v

namespace AuditEventHandler

/-- `AuditEventHandler._should_log`: drop directory events unless the
session includes directories. -/
def should_log (cfg : HandlerCfg) (is_directory : Bool) : Bool :=
  cfg.include_dirs || !is_directory

/-- `AuditEventHandler._should_log_modified`: the per-path debounce
gate.  Returns the decision and the updated map. -/
def should_log_modified (cfg : HandlerCfg) (m : List (String × ℚ))
    (key : String) (now : ℚ) : Bool × List (String × ℚ) :=
  match m.lookup key with
  | some last =>
    if now - last < cfg.modified_debounce_seconds then (false, m)
    else (true, mapInsert m key now)
  | none => (true, mapInsert m key now)

/-- The hash attached to a record (see the section comment: modelled
from the spec for the missing `hash_enabled` support). -/
def hashFor (cfg : HandlerCfg) (fs : FS) (path : String) : Option String :=
  if cfg.hash_enabled then safe_sha256 fs path else none

/-- `AuditEventHandler.on_created`. -/
def on_created (cfg : HandlerCfg) (fs : FS) (st : HandlerState)
    (src_path : String) (is_directory : Bool) (wall : String) : HandlerState :=
  if !should_log cfg is_directory then st
  else if should_ignore src_path cfg.ignore_patterns then st
  else
    { st with store :=
        (AuditLogger.log st.store "created" (some src_path) none
          (safe_file_size fs src_path) (hashFor cfg fs src_path)
          (some [("is_directory", is_directory)]) none wall).1 }

/-- `AuditEventHandler.on_modified`: directory check, ignore check,
then the debounce gate (which updates the map only when accepting). -/
def on_modified (cfg : HandlerCfg) (fs : FS) (st : HandlerState)
    (src_path : String) (is_directory : Bool) (mono : ℚ) (wall : String) :
    HandlerState :=
  if !should_log cfg is_directory then st
  else if should_ignore src_path cfg.ignore_patterns then st
  else
    let gate := should_log_modified cfg st.last_modified_logged_at src_path mono
    let st' := { st with last_modified_logged_at := gate.2 }
    if !gate.1 then st'
    else
      { st' with store :=
          (AuditLogger.log st'.store "modified" (some src_path) none
            (safe_file_size fs src_path) (hashFor cfg fs src_path)
            (some [("is_directory", is_directory)]) none wall).1 }

/-- `AuditEventHandler.on_deleted`: no size, no hash (file is gone). -/
def on_deleted (cfg : HandlerCfg) (fs : FS) (st : HandlerState)
    (src_path : String) (is_directory : Bool) (wall : String) : HandlerState :=
  if !should_log cfg is_directory then st
  else if should_ignore src_path cfg.ignore_patterns then st
  else
    { st with store :=
        (AuditLogger.log st.store "deleted" (some src_path) none
          none none (some [("is_directory", is_directory)]) none wall).1 }

/-- `AuditEventHandler.on_moved`: drops the event when either endpoint
is ignored; size and (when enabled) hash are taken on the destination. -/
def on_moved (cfg : HandlerCfg) (fs : FS) (st : HandlerState)
    (src_path dest_path : String) (is_directory : Bool) (wall : String) :
    HandlerState :=
  if !should_log cfg is_directory then st
  else if should_ignore src_path cfg.ignore_patterns
      || should_ignore dest_path cfg.ignore_patterns then st
  else
    { st with store :=
        (AuditLogger.log st.store "moved" (some src_path) (some dest_path)
          (safe_file_size fs dest_path) (hashFor cfg fs dest_path)
          (some [("is_directory", is_directory)]) none wall).1 }

end AuditEventHandler

/-! ### The verifier (cmd_verify in src/watcher/main.py) -/

/-- The verification report: the four bucket path lists, in scan order.
The counters in the source are incremented in lockstep with the list
appends, so they are the list lengths. -/
structure Report where
  ok_paths : List String
  changed_paths : List String
  missing_paths : List String
  unhashed_paths : List String
deriving Repr, DecidableEq

/-- The classification loop of `cmd_verify`: paths outside `base`
(where `resolve().relative_to(base)` raises) are skipped; the rest go
to exactly one bucket. -/
def verifyLoop (fs : FS) (base : String) : List (String × String) → Report
  | [] => ⟨[], [], [], []⟩
  | (path, old_hash) :: rest =>
    let r := verifyLoop fs base rest
    if !fs.within base path then r
    else if !fs.pathExists path then
      { r with missing_paths := path :: r.missing_paths }
    else
      match safe_sha256 fs path with
      | none => { r with unhashed_paths := path :: r.unhashed_paths }
      | some new_hash =>
        if new_hash == old_hash then { r with ok_paths := path :: r.ok_paths }
        else { r with changed_paths := path :: r.changed_paths }

/-- `cmd_verify` from src/watcher/main.py: pulls `latest_hashes`,
returns early (no report) when nothing is recorded, otherwise
classifies every recorded path. -/
def cmd_verify (fs : FS) (base : String) (st : Store) : Option Report :=
  let recorded := AuditLogger.latest_hashes st
  if recorded.isEmpty then none
  else some (verifyLoop fs base recorded)

/-! ### Operation sequences on the audit store (for the append-only
invariant).  The read operations return values but leave the table
unchanged; no operation of the system updates or deletes a row. -/

/-- One invocation of an `AuditLogger` operation. -/
inductive StoreOp where
  | opLog : String → Option String → Option String → Option Nat →
      Option String → Option (List (String × Bool)) → Option String →
      String → StoreOp
  | opLatest : Nat → StoreOp
  | opSearch : Option String → Option String → Option String → Nat → StoreOp
  | opLatestHashes : StoreOp

/-- Effect of one operation on the store (reads are pure). -/
def applyOp (st : Store) : StoreOp → Store
  | StoreOp.opLog et src dest size sha extra etime now =>
    (AuditLogger.log st et src dest size sha extra etime now).1
  | StoreOp.opLatest _ => st
  | StoreOp.opSearch _ _ _ _ => st
  | StoreOp.opLatestHashes => st

/-- Run a sequence of operations. -/
def applyOps (st : Store) (ops : List StoreOp) : Store :=
  ops.foldl applyOp st

/-! ### Auxiliary definitions used by the theorems below -/

/-- Deliver a burst of modify notifications for one path: each entry is
the monotonic clock reading and the wall-clock stamp of one
notification, processed in order by `on_modified`. -/
def runModifiedBurst (cfg : HandlerCfg) (fs : FS) (p : String) (dir : Bool) :
    HandlerState → List (ℚ × String) → HandlerState
  | st, [] => st
  | st, (mono, wall) :: rest =>
    runModifiedBurst cfg fs p dir
      (AuditEventHandler.on_modified cfg fs st p dir mono wall) rest

/-- The hash the scan of `latestHashesGo` yields for a path: the first
row in scan order whose truthy `src_path` equals the path (rows are
pre-filtered to non-null sha256). -/
def firstHash : List Row → String → Option String
  | [], _ => none
  | r :: rest, q =>
    match r.src_path, r.sha256 with
    | some p, some h =>
      if p == q && q != "" then some h else firstHash rest q
    | _, _ => firstHash rest q

instance : IsTrans Row (fun a b : Row => a.id < b.id) :=
  ⟨fun _ _ _ h1 h2 => Nat.lt_trans h1 h2⟩

/-- A filesystem oracle where nothing exists or is readable. -/
def fsEmpty : FS :=
  ⟨fun _ => none, fun _ => none, fun _ => false, fun _ _ => false⟩

/-- A filesystem oracle where every path stats at 7 bytes, exists, is
inside every base, and hashes to "hh". -/
def fsSome : FS :=
  ⟨fun _ => some 7, fun _ => some "hh", fun _ => true, fun _ _ => true⟩

/-- Handler configuration with the default ignore set, a one-second
window, directories excluded, hashing off. -/
def c6Cfg : HandlerCfg := mkHandlerCfg false none 1 false

/-- Handler configuration with a five-second debounce window. -/
def c4Cfg : HandlerCfg := mkHandlerCfg false none 5 false

/-- Trail whose path `/w/f.txt` has records (id 1, hash "aa") and
(id 2, hash NULL): its highest-id record has a null sha256. -/
def c1Store : Store :=
  ⟨[⟨1, "t1", "modified", some "/w/f.txt", none, some 3, some "aa", none⟩,
    ⟨2, "t2", "modified", some "/w/f.txt", none, some 3, none, none⟩], 3⟩

/-- Trail realizing the spec's example for one path:
records (id 1, hash "A"), (id 3, hash NULL), (id 5, hash "B"). -/
def c1StoreB : Store :=
  ⟨[⟨1, "t1", "created", some "/w/g.txt", none, some 3, some "A", none⟩,
    ⟨3, "t3", "modified", some "/w/g.txt", none, some 3, none, none⟩,
    ⟨5, "t5", "modified", some "/w/g.txt", none, some 3, some "B", none⟩], 6⟩

/-- A three-row trail used to witness the search/verify theorems. -/
def c2Store : Store :=
  ⟨[⟨1, "2026-01-01T10:00:00+00:00", "created", some "/w/a.txt", none,
      some 3, some "aa", none⟩,
    ⟨2, "2026-01-02T10:00:00+00:00", "modified", some "/w/a.txt", none,
      some 4, some "bb", none⟩,
    ⟨3, "2026-01-03T10:00:00+00:00", "deleted", some "/w/b.txt", none,
      none, none, none⟩], 4⟩

/-- A concrete operation sequence: two inserts with a read between. -/
def c5Ops : List StoreOp :=
  [StoreOp.opLog "created" (some "/w/a.txt") none (some 3) none none none "t1",
   StoreOp.opLatest 10,
   StoreOp.opLog "deleted" (some "/w/a.txt") none none none none none "t2"]

/-! ## Theorems -/

open AuditLogger AuditEventHandler

/-- C10: `AuditLogger.log` stamps the row with the current UTC time
whenever the supplied `event_time` is falsy (`None` or the empty
string); an explicit override is honored only when it is a non-empty
string. -/
theorem c10_event_time_falsy (st : Store) (et : String)
    (src dest : Option String) (size : Option Nat) (sha : Option String)
    (extra : Option (List (String × Bool))) (now : String) :
    (AuditLogger.log st et src dest size sha extra (some "") now).1.rows
      = st.rows ++ [⟨st.nextId, now, et, src, dest, size, sha, extra⟩]
    ∧ (AuditLogger.log st et src dest size sha extra none now).1.rows
      = st.rows ++ [⟨st.nextId, now, et, src, dest, size, sha, extra⟩]
    ∧ ∀ s : String, s ≠ "" →
      (AuditLogger.log st et src dest size sha extra (some s) now).1.rows
        = st.rows ++ [⟨st.nextId, s, et, src, dest, size, sha, extra⟩] := by
  refine ⟨?_, ?_, ?_⟩
  · simp [AuditLogger.log, pyOrStr]
  · simp [AuditLogger.log, pyOrStr]
  · intro s hs
    simp [AuditLogger.log, pyOrStr, hs]

/-- C10 witness: a concrete empty-string override is replaced by the
clock value. -/
theorem c10_event_time_falsy_witness :
    (AuditLogger.log emptyStore "startup" (some "/w") none none none none
      (some "x") "2026-01-01T00:00:00+00:00").1.rows
      = [⟨1, "x", "startup", some "/w", none, none, none, none⟩] :=
  (c10_event_time_falsy emptyStore "startup" (some "/w") none none none none
    "2026-01-01T00:00:00+00:00").2.2 "x" (by decide)

/-- C9: `search` invoked with no filters returns the same records in
the same order as `latest` with the same limit. -/
theorem c9_search_no_filters_eq_latest (st : Store) (limit : Nat) :
    AuditLogger.search st none none none limit = AuditLogger.latest st limit := by
  simp [AuditLogger.search, AuditLogger.latest, pyTruthy]

/-- C7: the ignore matcher is true iff some pattern glob-matches the
lowercased bare name or the lowercased full path; hence the result is
invariant under permutation of the pattern list, `.DS_Store` is ignored
at any directory depth, and the pattern `*.tmp` ignores `foo.TMP`. -/
theorem c7_ignore_matcher :
    (∀ (path : String) (patterns : List String),
      should_ignore path patterns = true ↔
        ∃ pat ∈ patterns,
          (fnmatch (strLower (pathName path)) (strLower pat)
            || fnmatch (strLower path) (strLower pat)) = true)
    ∧ (∀ (path : String) (ps ps' : List String), List.Perm ps ps' →
        should_ignore path ps = should_ignore path ps')
    ∧ (∀ path : String, pathName path = ".DS_Store" →
        should_ignore path DEFAULT_IGNORE_PATTERNS = true)
    ∧ should_ignore "/watched/sub/foo.TMP" ["*.tmp"] = true := by
  have hiff : ∀ (path : String) (patterns : List String),
      should_ignore path patterns = true ↔
        ∃ pat ∈ patterns,
          (fnmatch (strLower (pathName path)) (strLower pat)
            || fnmatch (strLower path) (strLower pat)) = true := by
    intro path patterns
    simp [should_ignore, List.any_eq_true]
  refine ⟨hiff, ?_, ?_, ?_⟩
  · intro path ps ps' hperm
    apply Bool.coe_iff_coe.mp
    rw [hiff, hiff]
    constructor
    · rintro ⟨pat, hmem, hpat⟩; exact ⟨pat, hperm.mem_iff.mp hmem, hpat⟩
    · rintro ⟨pat, hmem, hpat⟩; exact ⟨pat, hperm.mem_iff.mpr hmem, hpat⟩
  · intro path hname
    rw [hiff]
    refine ⟨".DS_Store", by decide, ?_⟩
    rw [hname]
    have hlit : fnmatch (strLower ".DS_Store") (strLower ".DS_Store") = true := by
      decide
    simp [hlit]
  · decide

/-- C7 witness: `.DS_Store` four directories deep is ignored. -/
theorem c7_ignore_matcher_witness :
    should_ignore "/a/b/c/d/.DS_Store" DEFAULT_IGNORE_PATTERNS = true :=
  c7_ignore_matcher.2.2.1 "/a/b/c/d/.DS_Store" (by decide)

/-- C6 counterexample: a directory move with neither endpoint ignored
writes zero records when the session excludes directories — the claim
"when neither endpoint is ignored, exactly one moved record is written"
fails on this input because of the directory-inclusion check. -/
theorem c6_counterexample :
    should_ignore "/w/srcdir" c6Cfg.ignore_patterns = false
    ∧ should_ignore "/w/destdir" c6Cfg.ignore_patterns = false
    ∧ AuditEventHandler.on_moved c6Cfg fsSome ⟨emptyStore, []⟩
        "/w/srcdir" "/w/destdir" true "t0" = ⟨emptyStore, []⟩ := by
  refine ⟨by decide, by decide, by decide⟩

/-- C6 (amended with the directory-inclusion check): a move with either
endpoint ignored writes zero records (the handler state is unchanged);
a move that passes the directory-inclusion check with neither endpoint
ignored writes exactly one `moved` record whose size is computed on the
destination path. -/
theorem c6_move_ignore :
    (∀ (cfg : HandlerCfg) (fs : FS) (st : HandlerState)
       (src dest : String) (dir : Bool) (wall : String),
      (should_ignore src cfg.ignore_patterns
        || should_ignore dest cfg.ignore_patterns) = true →
      AuditEventHandler.on_moved cfg fs st src dest dir wall = st)
    ∧ (∀ (cfg : HandlerCfg) (fs : FS) (st : HandlerState)
       (src dest : String) (dir : Bool) (wall : String),
      AuditEventHandler.should_log cfg dir = true →
      should_ignore src cfg.ignore_patterns = false →
      should_ignore dest cfg.ignore_patterns = false →
      (AuditEventHandler.on_moved cfg fs st src dest dir wall).store.rows
        = st.store.rows ++ [⟨st.store.nextId, wall, "moved", some src,
            some dest, safe_file_size fs dest, hashFor cfg fs dest,
            some [("is_directory", dir)]⟩]) := by
  constructor
  · intro cfg fs st src dest dir wall hign
    by_cases hlog : AuditEventHandler.should_log cfg dir = true
    · simp [AuditEventHandler.on_moved, hlog, hign]
    · simp [AuditEventHandler.on_moved, hlog]
  · intro cfg fs st src dest dir wall hlog hsrc hdest
    simp [AuditEventHandler.on_moved, hlog, hsrc, hdest,
      AuditLogger.log, pyOrStr]

/-- C6 witness: a concrete non-ignored file move writes one record
sized on the destination. -/
theorem c6_move_ignore_witness :
    (AuditEventHandler.on_moved c6Cfg fsSome ⟨emptyStore, []⟩
        "/w/a.txt" "/w/b.txt" false "t0").store.rows
      = (⟨emptyStore, []⟩ : HandlerState).store.rows
        ++ [⟨(⟨emptyStore, []⟩ : HandlerState).store.nextId, "t0", "moved",
            some "/w/a.txt", some "/w/b.txt", safe_file_size fsSome "/w/b.txt",
            hashFor c6Cfg fsSome "/w/b.txt", some [("is_directory", false)]⟩] :=
  c6_move_ignore.2 c6Cfg fsSome ⟨emptyStore, []⟩ "/w/a.txt" "/w/b.txt"
    false "t0" (by decide) (by decide) (by decide)

/-- C3 (hashing support modelled from the spec, see the handler
section): every persisted created/modified/moved record, when the event
passes the filter chain, is written as a single append whose sha256 is
the Fingerprint Service digest of the resulting path when hashing is
enabled (null when the read fails, the record still being written) and
null when hashing is disabled. -/
theorem c3_hashing_records :
    (∀ (cfg : HandlerCfg) (fs : FS) (st : HandlerState)
       (src : String) (dir : Bool) (wall : String),
      AuditEventHandler.should_log cfg dir = true →
      should_ignore src cfg.ignore_patterns = false →
      (AuditEventHandler.on_created cfg fs st src dir wall).store.rows
        = st.store.rows ++ [⟨st.store.nextId, wall, "created", some src,
            none, safe_file_size fs src,
            if cfg.hash_enabled then safe_sha256 fs src else none,
            some [("is_directory", dir)]⟩])
    ∧ (∀ (cfg : HandlerCfg) (fs : FS) (st : HandlerState)
       (src : String) (dir : Bool) (mono : ℚ) (wall : String),
      AuditEventHandler.should_log cfg dir = true →
      should_ignore src cfg.ignore_patterns = false →
      (AuditEventHandler.should_log_modified cfg
        st.last_modified_logged_at src mono).1 = true →
      (AuditEventHandler.on_modified cfg fs st src dir mono wall).store.rows
        = st.store.rows ++ [⟨st.store.nextId, wall, "modified", some src,
            none, safe_file_size fs src,
            if cfg.hash_enabled then safe_sha256 fs src else none,
            some [("is_directory", dir)]⟩])
    ∧ (∀ (cfg : HandlerCfg) (fs : FS) (st : HandlerState)
       (src dest : String) (dir : Bool) (wall : String),
      AuditEventHandler.should_log cfg dir = true →
      should_ignore src cfg.ignore_patterns = false →
      should_ignore dest cfg.ignore_patterns = false →
      (AuditEventHandler.on_moved cfg fs st src dest dir wall).store.rows
        = st.store.rows ++ [⟨st.store.nextId, wall, "moved", some src,
            some dest, safe_file_size fs dest,
            if cfg.hash_enabled then safe_sha256 fs dest else none,
            some [("is_directory", dir)]⟩]) := by
  refine ⟨?_, ?_, ?_⟩
  · intro cfg fs st src dir wall hlog hign
    simp [AuditEventHandler.on_created, hlog, hign, hashFor,
      AuditLogger.log, pyOrStr]
  · intro cfg fs st src dir mono wall hlog hign hgate
    simp [AuditEventHandler.on_modified, hlog, hign, hgate, hashFor,
      AuditLogger.log, pyOrStr]
  · intro cfg fs st src dest dir wall hlog hsrc hdest
    simp [AuditEventHandler.on_moved, hlog, hsrc, hdest, hashFor,
      AuditLogger.log, pyOrStr]

/-- C3 witness: with hashing enabled and an unreadable file, the
created record is still written, with a null sha256. -/
theorem c3_hashing_records_witness :
    (AuditEventHandler.on_created (mkHandlerCfg false none 1 true) fsEmpty
        ⟨emptyStore, []⟩ "/w/a.txt" false "t0").store.rows
      = (⟨emptyStore, []⟩ : HandlerState).store.rows
        ++ [⟨(⟨emptyStore, []⟩ : HandlerState).store.nextId, "t0", "created",
            some "/w/a.txt", none, safe_file_size fsEmpty "/w/a.txt",
            if (mkHandlerCfg false none 1 true).hash_enabled then
              safe_sha256 fsEmpty "/w/a.txt" else none,
            some [("is_directory", false)]⟩] :=
  c3_hashing_records.1 (mkHandlerCfg false none 1 true) fsEmpty
    ⟨emptyStore, []⟩ "/w/a.txt" false "t0" (by decide) (by decide)

theorem mapInsert_lookup (m : List (String × ℚ)) (k : String) (v : ℚ) :
    (mapInsert m k v).lookup k = some v := by
  induction m with
  | nil => simp [mapInsert, List.lookup]
  | cons e rest ih =>
    rcases e with ⟨k', v'⟩
    by_cases hk : k' = k
    · simp [mapInsert, hk, List.lookup]
    · have hne : (k == k') = false := by
        simp [BEq.beq]
        exact fun heq => hk heq.symm
      simp [mapInsert, hk, List.lookup, hne, ih]

theorem on_modified_first (cfg : HandlerCfg) (fs : FS) (st : HandlerState)
    (src : String) (mono : ℚ) (wall : String)
    (hign : should_ignore src cfg.ignore_patterns = false)
    (hlook : st.last_modified_logged_at.lookup src = none) :
    AuditEventHandler.on_modified cfg fs st src false mono wall
      = ⟨⟨st.store.rows ++ [⟨st.store.nextId, wall, "modified", some src,
            none, safe_file_size fs src, hashFor cfg fs src,
            some [("is_directory", false)]⟩], st.store.nextId + 1⟩,
          mapInsert st.last_modified_logged_at src mono⟩ := by
  have hgate : AuditEventHandler.should_log_modified cfg
      st.last_modified_logged_at src mono
      = (true, mapInsert st.last_modified_logged_at src mono) := by
    simp [AuditEventHandler.should_log_modified, hlook]
  simp [AuditEventHandler.on_modified, AuditEventHandler.should_log,
    hign, hgate, AuditLogger.log, pyOrStr]

theorem burst_suppressed (cfg : HandlerCfg) (fs : FS) (p : String) (t : ℚ)
    (hign : should_ignore p cfg.ignore_patterns = false) :
    ∀ (times : List (ℚ × String)) (st : HandlerState),
      st.last_modified_logged_at.lookup p = some t →
      (∀ q ∈ times, q.1 - t < cfg.modified_debounce_seconds) →
      runModifiedBurst cfg fs p false st times = st := by
  intro times
  induction times with
  | nil => intro st _ _; rfl
  | cons q rest ih =>
    intro st hlook hall
    rcases q with ⟨mono, wall⟩
    have hq : mono - t < cfg.modified_debounce_seconds :=
      hall (mono, wall) (List.mem_cons_self _ _)
    have hgate : AuditEventHandler.should_log_modified cfg
        st.last_modified_logged_at p mono
        = (false, st.last_modified_logged_at) := by
      simp [AuditEventHandler.should_log_modified, hlook, hq]
    have hstep : AuditEventHandler.on_modified cfg fs st p false mono wall
        = st := by
      simp [AuditEventHandler.on_modified, AuditEventHandler.should_log,
        hign, hgate]
    rw [runModifiedBurst, hstep]
    exact ih st hlook (fun q hq2 => hall q (List.mem_cons_of_mem _ hq2))

/-- C4: the debounce gate accepts the first observation of a path and
records the instant; afterwards it accepts iff at least the window has
elapsed since the last accepted instant, a suppressed observation
leaving the map unchanged.  Consequently a burst of N modify
notifications for one non-ignored file path at times t, t+eps, ...,
with 0 ≤ eps < W and (N-1)·eps < W, starting from a state that has not
seen the path, writes exactly one record, stamped with the wall-clock
stamp of the first notification (the one at time t), and records t as
the accepted instant. -/
theorem c4_debounce :
    (∀ (cfg : HandlerCfg) (m : List (String × ℚ)) (key : String) (now : ℚ),
      m.lookup key = none →
      AuditEventHandler.should_log_modified cfg m key now
          = (true, mapInsert m key now)
        ∧ (mapInsert m key now).lookup key = some now)
    ∧ (∀ (cfg : HandlerCfg) (m : List (String × ℚ)) (key : String)
        (now last : ℚ), m.lookup key = some last →
      ((AuditEventHandler.should_log_modified cfg m key now).1 = true
        ↔ cfg.modified_debounce_seconds ≤ now - last)
      ∧ ((AuditEventHandler.should_log_modified cfg m key now).1 = false →
          (AuditEventHandler.should_log_modified cfg m key now).2 = m)
      ∧ ((AuditEventHandler.should_log_modified cfg m key now).1 = true →
          (AuditEventHandler.should_log_modified cfg m key now).2.lookup key
            = some now))
    ∧ (∀ (cfg : HandlerCfg) (fs : FS) (st0 : HandlerState) (p : String)
        (N : Nat) (t eps : ℚ) (stamps : Nat → String),
      should_ignore p cfg.ignore_patterns = false →
      st0.last_modified_logged_at.lookup p = none →
      1 ≤ N → 0 ≤ eps → eps < cfg.modified_debounce_seconds →
      ((N : ℚ) - 1) * eps < cfg.modified_debounce_seconds →
      runModifiedBurst cfg fs p false st0
          ((List.range N).map fun k : Nat => (t + (k : ℚ) * eps, stamps k))
        = ⟨⟨st0.store.rows ++ [⟨st0.store.nextId, stamps 0, "modified",
              some p, none, safe_file_size fs p, hashFor cfg fs p,
              some [("is_directory", false)]⟩], st0.store.nextId + 1⟩,
            mapInsert st0.last_modified_logged_at p t⟩) := by
  refine ⟨?_, ?_, ?_⟩
  · intro cfg m key now hlook
    exact ⟨by simp [AuditEventHandler.should_log_modified, hlook],
      mapInsert_lookup m key now⟩
  · intro cfg m key now last hlook
    refine ⟨?_, ?_, ?_⟩
    · constructor
      · intro h1
        by_contra hlt
        push_neg at hlt
        have : now - last < cfg.modified_debounce_seconds := hlt
        simp [AuditEventHandler.should_log_modified, hlook, this] at h1
      · intro hge
        have : ¬ (now - last < cfg.modified_debounce_seconds) := not_lt.mpr hge
        simp [AuditEventHandler.should_log_modified, hlook, this]
    · intro h1
      by_cases hlt : now - last < cfg.modified_debounce_seconds
      · simp [AuditEventHandler.should_log_modified, hlook, hlt]
      · simp [AuditEventHandler.should_log_modified, hlook, hlt] at h1
    · intro h1
      by_cases hlt : now - last < cfg.modified_debounce_seconds
      · simp [AuditEventHandler.should_log_modified, hlook, hlt] at h1
      · simp [AuditEventHandler.should_log_modified, hlook, hlt,
          mapInsert_lookup]
  · intro cfg fs st0 p N t eps stamps hign hlook hN heps hepsW hNW
    obtain ⟨M, rfl⟩ : ∃ M, N = M + 1 := ⟨N - 1, by omega⟩
    rw [List.range_succ_eq_map, List.map_cons, List.map_map]
    have ht0 : t + ((0 : Nat) : ℚ) * eps = t := by push_cast; ring
    rw [runModifiedBurst, ht0,
      on_modified_first cfg fs st0 p t (stamps 0) hign hlook]
    apply burst_suppressed cfg fs p t hign
    · exact mapInsert_lookup _ _ _
    · intro q hq
      rcases List.mem_map.mp hq with ⟨k, hk, hkq⟩
      have hkM : k < M := List.mem_range.mp hk
      have hq1 : q.1 = t + ((k + 1 : Nat) : ℚ) * eps := by
        rw [← hkq]; simp [Function.comp]
      rw [hq1]
      have hle : ((k + 1 : Nat) : ℚ) * eps ≤ ((M : Nat) : ℚ) * eps := by
        apply mul_le_mul_of_nonneg_right _ heps
        exact_mod_cast Nat.succ_le_of_lt hkM
      have hMW : ((M : Nat) : ℚ) * eps < cfg.modified_debounce_seconds := by
        have : ((M + 1 : Nat) : ℚ) - 1 = (M : ℚ) := by push_cast; ring
        rw [this] at hNW
        exact_mod_cast hNW
      have := lt_of_le_of_lt hle hMW
      linarith

/-- C4 witness: a burst of three notifications one second apart with a
five-second window writes exactly one record, dated at the first
notification. -/
theorem c4_debounce_witness :
    runModifiedBurst c4Cfg fsSome "/w/a.txt" false ⟨emptyStore, []⟩
        ((List.range 3).map fun k : Nat =>
          ((0 : ℚ) + (k : ℚ) * (1 : ℚ), if k = 0 then "T0" else "Tlater"))
      = ⟨⟨(⟨emptyStore, []⟩ : HandlerState).store.rows
            ++ [⟨(⟨emptyStore, []⟩ : HandlerState).store.nextId, "T0",
              "modified", some "/w/a.txt", none,
              safe_file_size fsSome "/w/a.txt", hashFor c4Cfg fsSome "/w/a.txt",
              some [("is_directory", false)]⟩],
          (⟨emptyStore, []⟩ : HandlerState).store.nextId + 1⟩,
          mapInsert (⟨emptyStore, []⟩ : HandlerState).last_modified_logged_at
            "/w/a.txt" 0⟩ :=
  c4_debounce.2.2 c4Cfg fsSome ⟨emptyStore, []⟩ "/w/a.txt" 3 0 1
    (fun k => if k = 0 then "T0" else "Tlater") (by decide) rfl
    (by norm_num) (by norm_num)
    (by norm_num [c4Cfg, mkHandlerCfg])
    (by norm_num [c4Cfg, mkHandlerCfg])

theorem verifyLoop_spec (fs : FS) (base : String) :
    ∀ l : List (String × String),
      (verifyLoop fs base l).missing_paths
        = (l.filter fun pr => fs.within base pr.1
            && !fs.pathExists pr.1).map Prod.fst
      ∧ (verifyLoop fs base l).unhashed_paths
        = (l.filter fun pr => fs.within base pr.1 && fs.pathExists pr.1
            && (safe_sha256 fs pr.1).isNone).map Prod.fst
      ∧ (verifyLoop fs base l).ok_paths
        = (l.filter fun pr => fs.within base pr.1 && fs.pathExists pr.1
            && (safe_sha256 fs pr.1 == some pr.2)).map Prod.fst
      ∧ (verifyLoop fs base l).changed_paths
        = (l.filter fun pr => fs.within base pr.1 && fs.pathExists pr.1
            && (safe_sha256 fs pr.1).isSome
            && !(safe_sha256 fs pr.1 == some pr.2)).map Prod.fst := by
  intro l
  induction l with
  | nil => exact ⟨rfl, rfl, rfl, rfl⟩
  | cons pr rest ih =>
    rcases pr with ⟨p, old⟩
    rcases ih with ⟨ihm, ihu, iho, ihc⟩
    by_cases hw : fs.within base p = true
    · by_cases he : fs.pathExists p = true
      · cases hs : safe_sha256 fs p with
        | none =>
          refine ⟨?_, ?_, ?_, ?_⟩ <;>
            simp [verifyLoop, hw, he, hs, ihm, ihu, iho, ihc]
        | some nh =>
          by_cases heq : (nh == old) = true
          · refine ⟨?_, ?_, ?_, ?_⟩ <;>
              simp [verifyLoop, hw, he, hs, heq, ihm, ihu, iho, ihc]
          · refine ⟨?_, ?_, ?_, ?_⟩ <;>
              simp [verifyLoop, hw, he, hs, heq, ihm, ihu, iho, ihc]
      · refine ⟨?_, ?_, ?_, ?_⟩ <;>
          simp [verifyLoop, hw, he, ihm, ihu, iho, ihc]
    · refine ⟨?_, ?_, ?_, ?_⟩ <;>
        simp [verifyLoop, hw, ihm, ihu, iho, ihc]

theorem bucket_counts (fs : FS) (base : String) :
    ∀ l : List (String × String),
      (l.filter fun pr => fs.within base pr.1 && fs.pathExists pr.1
          && (safe_sha256 fs pr.1 == some pr.2)).length
      + (l.filter fun pr => fs.within base pr.1 && fs.pathExists pr.1
          && (safe_sha256 fs pr.1).isSome
          && !(safe_sha256 fs pr.1 == some pr.2)).length
      + (l.filter fun pr => fs.within base pr.1
          && !fs.pathExists pr.1).length
      + (l.filter fun pr => fs.within base pr.1 && fs.pathExists pr.1
          && (safe_sha256 fs pr.1).isNone).length
      = (l.filter fun pr => fs.within base pr.1).length := by
  intro l
  induction l with
  | nil => rfl
  | cons pr rest ih =>
    rcases pr with ⟨p, old⟩
    by_cases hw : fs.within base p = true
    · by_cases he : fs.pathExists p = true
      · cases hs : safe_sha256 fs p with
        | none => simp [hw, he, hs, ih]; omega
        | some nh =>
          by_cases heq : (nh == old) = true
          · simp [hw, he, hs, heq, ih]; omega
          · simp [hw, he, hs, heq, ih]; omega
      · simp [hw, he, ih]; omega
    · simp [hw, ih]

/-- C8 (`safe_sha256` is modelled from the spec, see there): whenever
`cmd_verify` produces a report, the recorded paths outside the folder
are skipped (they appear in no bucket and no count), every in-folder
recorded path lands in exactly one of the four buckets — missing when
the path no longer exists, unhashed when it exists but cannot be hashed
now, ok when the current hash equals the recorded one, changed when it
differs — and the four bucket counts sum to the number of in-folder
recorded paths. -/
theorem c8_verify_classification (fs : FS) (base : String) (st : Store)
    (rep : Report) (h : cmd_verify fs base st = some rep) :
    rep.missing_paths
      = ((AuditLogger.latest_hashes st).filter fun pr =>
          fs.within base pr.1 && !fs.pathExists pr.1).map Prod.fst
    ∧ rep.unhashed_paths
      = ((AuditLogger.latest_hashes st).filter fun pr =>
          fs.within base pr.1 && fs.pathExists pr.1
          && (safe_sha256 fs pr.1).isNone).map Prod.fst
    ∧ rep.ok_paths
      = ((AuditLogger.latest_hashes st).filter fun pr =>
          fs.within base pr.1 && fs.pathExists pr.1
          && (safe_sha256 fs pr.1 == some pr.2)).map Prod.fst
    ∧ rep.changed_paths
      = ((AuditLogger.latest_hashes st).filter fun pr =>
          fs.within base pr.1 && fs.pathExists pr.1
          && (safe_sha256 fs pr.1).isSome
          && !(safe_sha256 fs pr.1 == some pr.2)).map Prod.fst
    ∧ rep.ok_paths.length + rep.changed_paths.length
        + rep.missing_paths.length + rep.unhashed_paths.length
      = ((AuditLogger.latest_hashes st).filter fun pr =>
          fs.within base pr.1).length := by
  simp only [cmd_verify] at h
  split at h
  · exact absurd h (by simp)
  · have hrep : rep = verifyLoop fs base (AuditLogger.latest_hashes st) := by
      injection h with h1
      exact h1.symm
    subst hrep
    rcases verifyLoop_spec fs base (AuditLogger.latest_hashes st) with
      ⟨hm, hu, ho, hc⟩
    refine ⟨hm, hu, ho, hc, ?_⟩
    rw [hm, hu, ho, hc]
    simp only [List.length_map]
    exact bucket_counts fs base (AuditLogger.latest_hashes st)

/-- C8 witness: verifying a concrete trail whose one recorded in-folder
path now hashes differently files it in the changed bucket and nothing
else; the counts sum to one. -/
theorem c8_verify_classification_witness :
    (⟨[], ["/w/a.txt"], [], []⟩ : Report).missing_paths
      = ((AuditLogger.latest_hashes c2Store).filter fun pr =>
          fsSome.within "/w" pr.1 && !fsSome.pathExists pr.1).map Prod.fst
    ∧ (⟨[], ["/w/a.txt"], [], []⟩ : Report).unhashed_paths
      = ((AuditLogger.latest_hashes c2Store).filter fun pr =>
          fsSome.within "/w" pr.1 && fsSome.pathExists pr.1
          && (safe_sha256 fsSome pr.1).isNone).map Prod.fst
    ∧ (⟨[], ["/w/a.txt"], [], []⟩ : Report).ok_paths
      = ((AuditLogger.latest_hashes c2Store).filter fun pr =>
          fsSome.within "/w" pr.1 && fsSome.pathExists pr.1
          && (safe_sha256 fsSome pr.1 == some pr.2)).map Prod.fst
    ∧ (⟨[], ["/w/a.txt"], [], []⟩ : Report).changed_paths
      = ((AuditLogger.latest_hashes c2Store).filter fun pr =>
          fsSome.within "/w" pr.1 && fsSome.pathExists pr.1
          && (safe_sha256 fsSome pr.1).isSome
          && !(safe_sha256 fsSome pr.1 == some pr.2)).map Prod.fst
    ∧ (⟨[], ["/w/a.txt"], [], []⟩ : Report).ok_paths.length
        + (⟨[], ["/w/a.txt"], [], []⟩ : Report).changed_paths.length
        + (⟨[], ["/w/a.txt"], [], []⟩ : Report).missing_paths.length
        + (⟨[], ["/w/a.txt"], [], []⟩ : Report).unhashed_paths.length
      = ((AuditLogger.latest_hashes c2Store).filter fun pr =>
          fsSome.within "/w" pr.1).length :=
  c8_verify_classification fsSome "/w" c2Store ⟨[], ["/w/a.txt"], [], []⟩
    (by decide)

/-- C2 (the `sinceTime` bound is modelled from the spec, see
`sinceClause`): `search` applies the supplied filters — exact event
type, substring against either path field, timestamp lower bound — with
logical AND, an absent filter imposing no constraint, and returns rows
ordered id-descending up to the limit; in particular with only
`sinceTime = T` it returns exactly the rows whose `event_time` is at or
after `T`, up to the limit. -/
theorem c2_search_filters :
    (∀ (st : Store) (et c s : Option String) (L : Nat),
      AuditLogger.search st et c s L
        = (AuditLogger.orderByIdDesc (st.rows.filter fun r =>
            (!pyTruthy et || r.event_type == et.getD "")
            && (!pyTruthy c || (AuditLogger.likeContains r.src_path (c.getD "")
                  || AuditLogger.likeContains r.dest_path (c.getD "")))
            && (!pyTruthy s || AuditLogger.sinceClause (s.getD "") r))).take L)
    ∧ (∀ (st : Store) (T : String) (L : Nat), T ≠ "" →
      AuditLogger.search st none none (some T) L
        = (AuditLogger.orderByIdDesc (st.rows.filter fun r =>
            decide (T ≤ r.event_time))).take L) := by
  have hmain : ∀ (st : Store) (et c s : Option String) (L : Nat),
      AuditLogger.search st et c s L
        = (AuditLogger.orderByIdDesc (st.rows.filter fun r =>
            (!pyTruthy et || r.event_type == et.getD "")
            && (!pyTruthy c || (AuditLogger.likeContains r.src_path (c.getD "")
                  || AuditLogger.likeContains r.dest_path (c.getD "")))
            && (!pyTruthy s || AuditLogger.sinceClause (s.getD "") r))).take L := by
    intro st et c s L
    have hpred : ∀ r : Row,
        (((if pyTruthy et then
            [fun r : Row => r.event_type == et.getD ""] else [])
          ++ (if pyTruthy c then
            [fun r : Row => AuditLogger.likeContains r.src_path (c.getD "")
              || AuditLogger.likeContains r.dest_path (c.getD "")] else [])
          ++ (if pyTruthy s then
            [AuditLogger.sinceClause (s.getD "")] else [])).all
              fun cl => cl r)
          = ((!pyTruthy et || r.event_type == et.getD "")
            && (!pyTruthy c || (AuditLogger.likeContains r.src_path (c.getD "")
                  || AuditLogger.likeContains r.dest_path (c.getD "")))
            && (!pyTruthy s || AuditLogger.sinceClause (s.getD "") r)) := by
      intro r
      cases hE : pyTruthy et <;> cases hC : pyTruthy c <;> cases hS : pyTruthy s <;>
        simp [Bool.and_assoc]
    simp only [AuditLogger.search]
    rw [List.filter_congr fun r _ => hpred r]
  refine ⟨hmain, ?_⟩
  intro st T L hT
  rw [hmain st none none (some T) L]
  have hpred2 : ∀ r ∈ st.rows,
      ((!pyTruthy (none : Option String)
          || r.event_type == (none : Option String).getD "")
        && (!pyTruthy (none : Option String)
          || (AuditLogger.likeContains r.src_path
                ((none : Option String).getD "")
              || AuditLogger.likeContains r.dest_path
                ((none : Option String).getD "")))
        && (!pyTruthy (some T) || AuditLogger.sinceClause ((some T).getD "") r))
        = decide (T ≤ r.event_time) := by
    intro r _
    simp [pyTruthy, AuditLogger.sinceClause, hT]
  rw [List.filter_congr hpred2]

/-- C2 witness: searching a concrete trail with only a timestamp lower
bound returns exactly the rows at or after it, newest first. -/
theorem c2_search_filters_witness :
    AuditLogger.search c2Store none none (some "2026-01-02") 10
      = (AuditLogger.orderByIdDesc (c2Store.rows.filter fun r =>
          decide ("2026-01-02" ≤ r.event_time))).take 10 :=
  c2_search_filters.2 c2Store "2026-01-02" 10 (by decide)

/-- Invariant of reachable stores: row ids are strictly increasing in
insertion order and all are below the auto-increment counter. -/
def StoreInv (st : Store) : Prop :=
  List.Chain' (fun a b : Row => a.id < b.id) st.rows
    ∧ ∀ r ∈ st.rows, r.id < st.nextId

theorem applyOp_ext (st : Store) (op : StoreOp) :
    ∃ ext, (applyOp st op).rows = st.rows ++ ext := by
  cases op with
  | opLog et src dest size sha extra etime now =>
    exact ⟨_, rfl⟩
  | opLatest limit => exact ⟨[], (List.append_nil _).symm⟩
  | opSearch et c s limit => exact ⟨[], (List.append_nil _).symm⟩
  | opLatestHashes => exact ⟨[], (List.append_nil _).symm⟩

theorem applyOp_inv {st : Store} (h : StoreInv st) (op : StoreOp) :
    StoreInv (applyOp st op) := by
  cases op with
  | opLog et src dest size sha extra etime now =>
    rcases h with ⟨hchain, hbound⟩
    constructor
    · rw [applyOp]
      simp only [AuditLogger.log]
      rw [List.chain'_append]
      refine ⟨hchain, List.chain'_singleton _, ?_⟩
      intro x hx y hy
      simp only [List.head?_cons, Option.mem_def, Option.some.injEq] at hy
      rw [← hy]
      exact hbound x (List.mem_of_mem_getLast? hx)
    · intro r hr
      simp only [applyOp, AuditLogger.log, List.mem_append,
        List.mem_singleton] at hr
      rcases hr with hr | hr
      · exact Nat.lt_succ_of_lt (hbound r hr)
      · rw [hr]; exact Nat.lt_succ_self _
  | opLatest limit => exact h
  | opSearch et c s limit => exact h
  | opLatestHashes => exact h

theorem applyOps_inv {st : Store} (h : StoreInv st) (ops : List StoreOp) :
    StoreInv (applyOps st ops) := by
  induction ops generalizing st with
  | nil => exact h
  | cons op rest ih => exact ih (applyOp_inv h op)

theorem applyOps_ext (ops : List StoreOp) :
    ∀ st : Store, ∃ ext, (applyOps st ops).rows = st.rows ++ ext := by
  induction ops with
  | nil => intro st; exact ⟨[], (List.append_nil _).symm⟩
  | cons op rest ih =>
    intro st
    rcases applyOp_ext st op with ⟨e1, he1⟩
    rcases ih (applyOp st op) with ⟨e2, he2⟩
    refine ⟨e1 ++ e2, ?_⟩
    show (applyOps (applyOp st op) rest).rows = _
    rw [he2, he1, List.append_assoc]

/-- C5: over every sequence of audit-store operations starting from the
fresh store, row ids are strictly increasing in insertion order (hence
unique, never reused, never reordered relative to the append calls),
and the trail is append-only: the rows after any prefix of the
operations are a prefix of the rows after the whole sequence — reads
change nothing and nothing is ever updated or deleted. -/
theorem c5_append_only (ops : List StoreOp) :
    List.Chain' (fun a b : Row => a.id < b.id) (applyOps emptyStore ops).rows
    ∧ ∀ pre suf, ops = pre ++ suf →
        ∃ ext, (applyOps emptyStore ops).rows
          = (applyOps emptyStore pre).rows ++ ext := by
  constructor
  · exact (applyOps_inv ⟨List.chain'_nil,
      by intro r hr; simp [emptyStore] at hr⟩ ops).1
  · intro pre suf hsplit
    subst hsplit
    rw [applyOps, List.foldl_append]
    exact applyOps_ext suf (applyOps emptyStore pre)

/-- C5 witness: a concrete log/read/log sequence yields strictly
increasing ids, and the one-operation prefix is a prefix of the final
trail. -/
theorem c5_append_only_witness :
    List.Chain' (fun a b : Row => a.id < b.id)
        (applyOps emptyStore c5Ops).rows
    ∧ ∃ ext, (applyOps emptyStore c5Ops).rows
        = (applyOps emptyStore [StoreOp.opLog "created" (some "/w/a.txt")
            none (some 3) none none none "t1"]).rows ++ ext :=
  ⟨(c5_append_only c5Ops).1,
   (c5_append_only c5Ops).2
     [StoreOp.opLog "created" (some "/w/a.txt") none (some 3) none none none "t1"]
     [StoreOp.opLatest 10,
      StoreOp.opLog "deleted" (some "/w/a.txt") none none none none none "t2"]
     rfl⟩

theorem firstHash_empty_q : ∀ l : List Row, firstHash l "" = none := by
  intro l
  induction l with
  | nil => rfl
  | cons r rest ih =>
    cases hs : r.src_path with
    | none => simp [firstHash, hs, ih]
    | some p =>
      cases hh : r.sha256 with
      | none => simp [firstHash, hs, hh, ih]
      | some h0 => simp [firstHash, hs, hh, ih]

theorem latestHashesGo_lookup :
    ∀ (l : List Row) (acc : List (String × String)) (q : String),
      (AuditLogger.latestHashesGo l acc).lookup q
        = (acc.lookup q).or (firstHash l q) := by
  intro l
  induction l with
  | nil =>
    intro acc q
    simp [AuditLogger.latestHashesGo, firstHash]
  | cons r rest ih =>
    intro acc q
    cases hs : r.src_path with
    | none => simp [AuditLogger.latestHashesGo, firstHash, hs, ih]
    | some p =>
      cases hh : r.sha256 with
      | none => simp [AuditLogger.latestHashesGo, firstHash, hs, hh, ih]
      | some h0 =>
        simp only [AuditLogger.latestHashesGo, firstHash, hs, hh]
        by_cases hguard : (p != "" && (List.lookup p acc).isNone) = true
        · rw [if_pos hguard, ih, List.lookup_append]
          rw [Bool.and_eq_true] at hguard
          rcases hguard with ⟨hp, hnone⟩
          have hp' : p ≠ "" := by simpa using hp
          have hnone' : acc.lookup p = none := by
            simpa [Option.isNone_iff_eq_none] using hnone
          by_cases hpq : q = p
          · subst hpq
            simp [hnone', hp', List.lookup, Option.or]
          · have hq1 : (q == p) = false := by
              simpa using hpq
            have hcond : (p == q && q != "") = false := by
              have : (p == q) = false := by
                simp only [beq_eq_false_iff_ne]
                exact fun h => hpq h.symm
              simp [this]
            rw [hcond, if_neg (by simp)]
            cases hacc : acc.lookup q with
            | none => simp [Option.or, List.lookup, hq1]
            | some v => simp [Option.or]
        · rw [if_neg hguard, ih]
          by_cases hpq : q = p
          · subst hpq
            by_cases hp : q = ""
            · subst hp
              have hcond : (("" : String) == "" && ("" : String) != "") = false := by
                decide
              rw [hcond, if_neg (by simp)]
            · have hsome : ∃ v, acc.lookup q = some v := by
                have hbne : (q != "") = true := by simpa using hp
                rw [hbne] at hguard
                simp only [Bool.true_and] at hguard
                cases hacc : acc.lookup q with
                | none => rw [hacc] at hguard; simp at hguard
                | some v => exact ⟨v, rfl⟩
              rcases hsome with ⟨v, hv⟩
              rw [hv]
              simp [Option.or]
          · have hcond : (p == q && q != "") = false := by
              have : (p == q) = false := by
                simp only [beq_eq_false_iff_ne]
                exact fun h => hpq h.symm
              simp [this]
            rw [hcond, if_neg (by simp)]

theorem orderedInsert_append (a : Row) :
    ∀ l : List Row, (∀ x ∈ l, ¬ (x.id ≤ a.id)) →
      List.orderedInsert (fun u v : Row => v.id ≤ u.id) a l = l ++ [a] := by
  intro l
  induction l with
  | nil => intro _; rfl
  | cons b t ih =>
    intro h
    have hb : ¬ (b.id ≤ a.id) := h b (List.mem_cons_self _ _)
    simp only [List.orderedInsert, if_neg hb]
    rw [ih fun x hx => h x (List.mem_cons_of_mem _ hx)]
    simp

theorem sortDesc_eq_reverse :
    ∀ rows : List Row,
      List.Chain' (fun a b : Row => a.id < b.id) rows →
      AuditLogger.orderByIdDesc rows = rows.reverse := by
  intro rows
  induction rows with
  | nil => intro _; rfl
  | cons r rest ih =>
    intro hchain
    have hpair := List.chain'_iff_pairwise.mp hchain
    have hhead : ∀ x ∈ rest, r.id < x.id :=
      fun x hx => (List.pairwise_cons.mp hpair).1 x hx
    have htail : List.Chain' (fun a b : Row => a.id < b.id) rest :=
      hchain.tail
    show List.orderedInsert _ r (List.insertionSort _ rest) = _
    rw [show List.insertionSort (fun u v : Row => v.id ≤ u.id) rest
        = AuditLogger.orderByIdDesc rest from rfl, ih htail]
    rw [orderedInsert_append r rest.reverse
      (fun x hx => Nat.not_le.mpr (hhead x (List.mem_reverse.mp hx)))]
    simp

theorem exists_bound_cons_of_head_not (r : Row) (rest : List Row)
    (q hsh : String)
    (hnot : ¬ (r.src_path = some q ∧ r.sha256 ≠ none)) :
    (∃ r0 ∈ r :: rest, r0.src_path = some q ∧ r0.sha256 = some hsh ∧
        ∀ r' ∈ r :: rest, r'.src_path = some q → r'.sha256 ≠ none →
          r'.id ≤ r0.id)
    ↔ (∃ r0 ∈ rest, r0.src_path = some q ∧ r0.sha256 = some hsh ∧
        ∀ r' ∈ rest, r'.src_path = some q → r'.sha256 ≠ none →
          r'.id ≤ r0.id) := by
  constructor
  · rintro ⟨r0, h0, hsrc0, hsha0, hb0⟩
    rcases List.mem_cons.mp h0 with h | h
    · subst h
      exact absurd ⟨hsrc0, by simp [hsha0]⟩ hnot
    · exact ⟨r0, h, hsrc0, hsha0,
        fun r' hr' => hb0 r' (List.mem_cons_of_mem _ hr')⟩
  · rintro ⟨r0, h0, hsrc0, hsha0, hb0⟩
    refine ⟨r0, List.mem_cons_of_mem _ h0, hsrc0, hsha0, ?_⟩
    intro r' hr' hs' hn'
    rcases List.mem_cons.mp hr' with h | h
    · subst h
      exact absurd ⟨hs', hn'⟩ hnot
    · exact hb0 r' h hs' hn'

theorem firstHash_spec (q : String) (hq : q ≠ "") :
    ∀ l : List Row, List.Pairwise (fun a b : Row => b.id < a.id) l →
      ∀ hsh : String,
        (firstHash l q = some hsh ↔
          ∃ r ∈ l, r.src_path = some q ∧ r.sha256 = some hsh ∧
            ∀ r' ∈ l, r'.src_path = some q → r'.sha256 ≠ none →
              r'.id ≤ r.id) := by
  intro l
  induction l with
  | nil => intro _ hsh; simp [firstHash]
  | cons r rest ih =>
    intro hpair hsh
    have hhead : ∀ x ∈ rest, x.id < r.id :=
      fun x hx => (List.pairwise_cons.mp hpair).1 x hx
    have htail := (List.pairwise_cons.mp hpair).2
    cases hs : r.src_path with
    | none =>
      simp only [firstHash, hs]
      rw [ih htail hsh,
        ← exists_bound_cons_of_head_not r rest q hsh (by simp [hs])]
    | some p =>
      cases hh : r.sha256 with
      | none =>
        simp only [firstHash, hs, hh]
        rw [ih htail hsh,
          ← exists_bound_cons_of_head_not r rest q hsh (by simp [hh])]
      | some h0 =>
        by_cases hpq : p = q
        · subst hpq
          have hcond : (p == p && p != "") = true := by
            simp [hq]
          simp only [firstHash, hs, hh, hcond, if_pos]
          constructor
          · intro heq
            have h0h : h0 = hsh := by injection heq
            refine ⟨r, List.mem_cons_self _ _, hs, by rw [hh, h0h], ?_⟩
            intro r' hr' _ _
            rcases List.mem_cons.mp hr' with h | h
            · subst h; exact Nat.le_refl _
            · exact (hhead r' h).le
          · rintro ⟨r0, h0mem, hsrc0, hsha0, hb0⟩
            have hle : r.id ≤ r0.id :=
              hb0 r (List.mem_cons_self _ _) hs (by simp [hh])
            rcases List.mem_cons.mp h0mem with h | h
            · subst h
              rw [hh] at hsha0
              exact hsha0
            · exact absurd hle (Nat.not_le.mpr (hhead r0 h))
        · have hcond : (p == q && q != "") = false := by
            have : (p == q) = false := by
              simpa using hpq
            simp [this]
          simp only [firstHash, hs, hh, hcond, if_neg]
          rw [if_neg (by simp), ih htail hsh,
            ← exists_bound_cons_of_head_not r rest q hsh
              (by simp [hs]; exact fun h => absurd h hpq)]

/-- C1 (amended): `latestHashesByPath` returns, for each truthy path,
the sha256 of that path's highest-id record among the records with a
non-null sha256 — null-hash records are skipped before deduplication,
so a path whose newest record has a null hash falls back to the newest
older record with a non-null hash rather than being excluded; the
spec's own example [(id 1, A), (id 5, B), (id 3, null)] still yields B. -/
theorem c1_latest_hashes_backfills :
    (∀ st : Store,
      List.Chain' (fun a b : Row => a.id < b.id) st.rows →
      ∀ p hsh : String,
        (AuditLogger.latest_hashes st).lookup p = some hsh ↔
          p ≠ "" ∧ ∃ r ∈ st.rows, r.src_path = some p ∧ r.sha256 = some hsh ∧
            ∀ r' ∈ st.rows, r'.src_path = some p → r'.sha256 ≠ none →
              r'.id ≤ r.id)
    ∧ AuditLogger.latest_hashes c1StoreB = [("/w/g.txt", "B")] := by
  constructor
  · intro st hchain p hsh
    have hfil : List.Chain' (fun a b : Row => a.id < b.id)
        (st.rows.filter fun r => r.sha256.isSome) :=
      hchain.sublist (List.filter_sublist _)
    unfold AuditLogger.latest_hashes
    rw [sortDesc_eq_reverse _ hfil, latestHashesGo_lookup]
    simp only [List.lookup_nil, Option.or]
    by_cases hp : p = ""
    · subst hp
      rw [firstHash_empty_q]
      simp
    · have hpair : List.Pairwise (fun a b : Row => b.id < a.id)
          (st.rows.filter fun r => r.sha256.isSome).reverse := by
        rw [List.pairwise_reverse]
        exact List.chain'_iff_pairwise.mp hfil
      rw [firstHash_spec p hp _ hpair hsh]
      constructor
      · rintro ⟨r, hr, hsrc, hsha, hbound⟩
        have hrmem : r ∈ st.rows :=
          (List.mem_filter.mp (List.mem_reverse.mp hr)).1
        refine ⟨hp, r, hrmem, hsrc, hsha, ?_⟩
        intro r' hr' hs' hn'
        exact hbound r'
          (List.mem_reverse.mpr (List.mem_filter.mpr
            ⟨hr', Option.ne_none_iff_isSome.mp hn'⟩)) hs' hn'
      · rintro ⟨_, r, hr, hsrc, hsha, hbound⟩
        refine ⟨r, List.mem_reverse.mpr (List.mem_filter.mpr
          ⟨hr, by simp [hsha]⟩), hsrc, hsha, ?_⟩
        intro r' hr' hs' hn'
        exact hbound r' (List.mem_filter.mp (List.mem_reverse.mp hr')).1
          hs' hn'
  · decide

/-- C1 witness: the general characterization applied to the
counterexample trail — the hash "aa" of the older record id 1 is
returned for the path whose newest record (id 2) has a null hash. -/
theorem c1_latest_hashes_backfills_witness :
    (AuditLogger.latest_hashes c1Store).lookup "/w/f.txt" = some "aa" ↔
      ("/w/f.txt" : String) ≠ ""
      ∧ ∃ r ∈ c1Store.rows, r.src_path = some "/w/f.txt"
          ∧ r.sha256 = some "aa"
          ∧ ∀ r' ∈ c1Store.rows, r'.src_path = some "/w/f.txt" →
              r'.sha256 ≠ none → r'.id ≤ r.id :=
  c1_latest_hashes_backfills.1 c1Store
    (by simp [c1Store, List.chain'_cons, List.chain'_singleton]) "/w/f.txt" "aa"

/-- C1 counterexample: in `c1Store` the highest-id record of
`/w/f.txt` (id 2) has a null sha256, yet `latest_hashes` still returns
the hash of the older record id 1 — the path is backfilled, not
excluded as the claim states. -/
theorem c1_counterexample :
    AuditLogger.latest_hashes c1Store = [("/w/f.txt", "aa")]
    ∧ (AuditLogger.latest_hashes c1Store).lookup "/w/f.txt" ≠ none
    ∧ (c1Store.rows.map fun r => (r.id, r.sha256))
        = [(1, some "aa"), (2, none)] := by
  refine ⟨by decide, by decide, by decide⟩

end SmartWatcher
